import Mathlib

set_option maxHeartbeats 1000000

/-! Shallow embedding of the zlicer repository: the facet data model and the
adjacency and decomposition algorithms of helpers.py, and the STL byte
parser of stl_parser.py.  Coordinates are modelled as rationals: the code
only ever compares coordinates for exact equality and compares centroid
distances, both of which are decidable on rationals. -/

/-- Coordinates of one vertex.  Python represents a vertex as a 3-tuple of
floats; the exact comparisons and the arithmetic appearing in the code are
modelled on rationals. -/
structure Pt where
  x : ℚ
  y : ℚ
  z : ℚ
deriving DecidableEq

/-- One triangular facet: an ordered triple of vertices, exactly the
tuple-of-tuples produced by facet_to_tuple in helpers.py. -/
structure Facet where
  v1 : Pt
  v2 : Pt
  v3 : Pt
deriving DecidableEq

/-- Python facet_to_tuple: facets are already modelled as vertex triples, so
the numpy-array-to-tuple conversion is the identity here. -/
def facet_to_tuple (f : Facet) : Facet := f

/-- Python point_to_tuple, likewise the identity in this model. -/
def point_to_tuple (p : Pt) : Pt := p

@[simp] theorem facet_to_tuple_def (f : Facet) : facet_to_tuple f = f := rfl

@[simp] theorem point_to_tuple_def (p : Pt) : point_to_tuple p = p := rfl

/-- The three corner vertices of a facet, in order. -/
def facetPoints (f : Facet) : List Pt := [f.v1, f.v2, f.v3]

/-- Keep the first occurrence of every element, dropping later duplicates;
auxiliary accumulator form. -/
def dedupFirstAux {α : Type} [DecidableEq α] (seen : List α) : List α → List α
  | [] => []
  | a :: rest =>
    if a ∈ seen then dedupFirstAux seen rest
    else a :: dedupFirstAux (a :: seen) rest

/-- First-occurrence deduplication: the key order and key set of a Python
dict built by repeated insertion. -/
def dedupFirst {α : Type} [DecidableEq α] (l : List α) : List α :=
  dedupFirstAux [] l

/-- The point_map built by the first loop of get_adj_map: every vertex is
mapped to the set of facets having it as a corner. -/
def point_map (facets : List Facet) (p : Pt) : Finset Facet :=
  ((facets.map facet_to_tuple).filter (fun f => decide (p ∈ facetPoints f))).toFinset

/-- The adjacency candidate set computed for one facet inside the second
loop of get_adj_map: all facets sharing one of the three vertex pairs, with
the facet itself removed at the end. -/
def adjSet (facets : List Facet) (f : Facet) : Finset Facet :=
  let v1f := point_map facets (point_to_tuple f.v1)
  let v2f := point_map facets (point_to_tuple f.v2)
  let v3f := point_map facets (point_to_tuple f.v3)
  (((v1f ∩ v2f) ∪ (v1f ∩ v3f)) ∪ (v2f ∩ v3f)).erase (facet_to_tuple f)

/-- The Python set adj_facets is materialised by list(adj_facets); Python
set iteration order is unspecified, so the list is modelled in
first-occurrence input order.  Every verified property is
order-independent. -/
def adjListOf (facets : List Facet) (f : Facet) : List Facet :=
  (dedupFirst (facets.map facet_to_tuple)).filter (fun g => decide (g ∈ adjSet facets f))

/-- AdjacencyMap: insertion-ordered key and value pairs of the Python dict
built by get_adj_map. -/
abbrev AdjMap := List (Facet × List Facet)

/-- get_adj_map of helpers.py. -/
def get_adj_map (facets : List Facet) : AdjMap :=
  (dedupFirst (facets.map facet_to_tuple)).map (fun f => (f, adjListOf facets f))

/-- Dictionary lookup adj_map of a facet, total with default empty list;
the code only ever looks up keys that are present. -/
def lookupAdj (adj : AdjMap) (f : Facet) : List Facet :=
  match adj.find? (fun e => decide (e.1 = f)) with
  | some e => e.2
  | none => []

/-- The key list of the adjacency dictionary. -/
def adjKeys (adj : AdjMap) : List Facet := adj.map Prod.fst

/-- Centroid (mean over the three corners, coordinate-wise) of a facet, as
np.array(facet).mean(axis=0) computes it. -/
def facetMean (f : Facet) : Pt :=
  ⟨(f.v1.x + f.v2.x + f.v3.x) / 3,
   (f.v1.y + f.v2.y + f.v3.y) / 3,
   (f.v1.z + f.v2.z + f.v3.z) / 3⟩

/-- Squared euclidean distance between two points.  The code sorts by the
euclidean norm itself; sorting by the exact squared distance produces the
same ascending order because the square root is monotone. -/
def distSq (p q : Pt) : ℚ :=
  (p.x - q.x) * (p.x - q.x) + (p.y - q.y) * (p.y - q.y) +
    (p.z - q.z) * (p.z - q.z)

/-- Insert a facet into a list kept sorted by ascending centroid distance
from the reference point m. -/
def insertByDist (m : Pt) (f : Facet) : List Facet → List Facet
  | [] => [f]
  | g :: rest =>
    if distSq m (facetMean f) < distSq m (facetMean g) then f :: g :: rest
    else g :: insertByDist m f rest

/-- Sort adjacency candidates by ascending centroid distance from m, as the
sorted call in _decompose does.  Python leaves the order of ties to a
stable sort over an unspecified set order; every verified property is
independent of the candidate order. -/
def sortCands (m : Pt) (l : List Facet) : List Facet :=
  l.foldr (insertByDist m) []

/-- Python truthiness of the value returned by _decompose: None and the
empty list are falsy. -/
def pyTruthy : Option (List Facet) → Bool
  | none => false
  | some l => !l.isEmpty

/-- The first termination test of _decompose: depth is truthy (not None and
nonzero) and the path length equals it. -/
def depthHit (depth : Option Nat) (path : List Facet) : Bool :=
  match depth with
  | none => false
  | some d => !(d == 0) && path.length == d

/-- The candidate loop of _decompose.  The recursive call is abstracted as
go; the visited set removed is threaded exactly as the Python set object
is mutated: the candidate is inserted before the recursive call, the
call's final state is kept on a truthy result, and the candidate is erased
from that final state before trying the next candidate on failure. -/
def tryCands (go : List Facet → Finset Facet → Option (List Facet) × Finset Facet)
    (path : List Facet) : List Facet → Finset Facet → Option (List Facet) × Finset Facet
  | [], removed => (none, removed)
  | adjacent :: rest, removed =>
    if adjacent ∈ removed then tryCands go path rest removed
    else
      let r := go (path ++ [adjacent]) (insert adjacent removed)
      if pyTruthy r.1 then r
      else tryCands go path rest (r.2.erase adjacent)

/-- Recursive search _decompose of helpers.py, with a fuel parameter that
makes the recursion structural.  Running out of fuel returns failure with
the visited set unchanged; decompose supplies fuel that the search can
never exhaust, because every recursive call strictly grows the visited set
inside the finite key set.  The result pairs the returned path (or None)
with the final state of the mutable visited set removed_set.  The branch
for an empty path mirrors the fact that path is never empty in any call
the code makes. -/
def _decompose : Nat → AdjMap → List Facet → Finset Facet → Option Nat →
    Option (List Facet) × Finset Facet
  | 0, _, _, removed, _ => (none, removed)
  | fuel + 1, adj, path, removed, depth =>
    if depthHit depth path then (some path, removed)
    else if path.length = adj.length then (some path, removed)
    else
      match path.getLast? with
      | none => (none, removed)
      | some last =>
        tryCands (fun p r => _decompose fuel adj p r depth) path
          (sortCands (facetMean last) (lookupAdj adj last)) removed

/-- The start-facet loop of decompose: seed the search at each facet in
input order with a fresh visited set and return the first truthy result. -/
def decomposeGo (adj : AdjMap) (depth : Option Nat) : List Facet → Option (List Facet)
  | [] => none
  | f :: rest =>
    let t := facet_to_tuple f
    let r := _decompose (adj.length + 1) adj [t] {t} depth
    if pyTruthy r.1 then r.1 else decomposeGo adj depth rest

/-- decompose of helpers.py.  A None result models the final raised
Exception: no decomposition was found. -/
def decompose (facets : List Facet) (depth : Option Nat) : Option (List Facet) :=
  decomposeGo (get_adj_map facets) depth facets

/-! Embedding of the byte-level parser of stl_parser.py.  Raw bytes are
lists of natural numbers (values below 256 for genuine byte strings). -/

abbrev Bytes := List Nat

/-- Little-endian unsigned integer value of the first four bytes, as
struct.unpack with format <I reads them. -/
def leUint32 (b : Bytes) : Nat :=
  (b.take 4).foldr (fun c acc => c + 256 * acc) 0

/-- A 32-bit float field is identified with its 4-byte little-endian bit
pattern; the verified parser claims never perform float arithmetic. -/
def leWord32At (b : Bytes) (off : Nat) : Nat := leUint32 (b.drop off)

/-- A decoded 3-component vector of 32-bit float fields. -/
structure BVec where
  x : Nat
  y : Nat
  z : Nat
deriving DecidableEq

/-- A decoded binary triangle: its three vertices. -/
structure BTri where
  p1 : BVec
  p2 : BVec
  p3 : BVec
deriving DecidableEq

/-- A parsed mesh: per-facet normals and vertex triples, in file order. -/
structure ParsedMesh where
  normals : List BVec
  facets : List BTri
deriving DecidableEq

/-- Decode one 50-byte triangle record at the given offset: 12 little-endian
32-bit floats (normal, v1, v2, v3) followed by a 2-byte attribute field
that is read and discarded. -/
def decodeTri (b : Bytes) (off : Nat) : BVec × BTri :=
  (⟨leWord32At b off, leWord32At b (off + 4), leWord32At b (off + 8)⟩,
   ⟨⟨leWord32At b (off + 12), leWord32At b (off + 16), leWord32At b (off + 20)⟩,
    ⟨leWord32At b (off + 24), leWord32At b (off + 28), leWord32At b (off + 32)⟩,
    ⟨leWord32At b (off + 36), leWord32At b (off + 40), leWord32At b (off + 44)⟩⟩)

/-- Decode the given number of triangle records starting at an offset. -/
def decodeTris (b : Bytes) : Nat → Nat → List BVec × List BTri
  | 0, _ => ([], [])
  | n + 1, off =>
    let r := decodeTri b off
    let rest := decodeTris b n (off + 50)
    (r.1 :: rest.1, r.2 :: rest.2)

/-- The distinct ValueError conditions _parse_binary can raise. -/
inductive BinErr where
  | tooSmall (len : Nat)
  | sizeMismatchLikelyAscii (len expected : Nat)
  | sizeMismatch (numTriangles expected len : Nat)
deriving DecidableEq

/-- True exactly for the two size-mismatch errors of _parse_binary. -/
def BinErr.isSizeMismatch : BinErr → Bool
  | .sizeMismatchLikelyAscii _ _ => true
  | .sizeMismatch _ _ _ => true
  | .tooSmall _ => false

/-- The distinct failure modes of STLParser._parse. -/
inductive ParseErr where
  | asciiFailed (msg : String)
  | bothFailed (asciiMsg : String) (e : BinErr)
  | binaryFailed (e : BinErr)
  | couldNotParse
deriving DecidableEq

/-- ASCII whitespace bytes removed by the Python bytes strip method. -/
def pySpaceByte (c : Nat) : Bool :=
  c == 32 || c == 9 || c == 10 || c == 13 || c == 11 || c == 12

/-- Python bytes strip: whitespace removed from both ends. -/
def bytesStrip (b : Bytes) : Bytes :=
  ((b.dropWhile pySpaceByte).reverse.dropWhile pySpaceByte).reverse

/-- The byte string solid. -/
def solidToken : Bytes := [115, 111, 108, 105, 100]

/-- The test stl_bytes.strip().startswith(solid) used by _parse_binary to
flag a likely misidentified ASCII file. -/
def strippedStartsWithSolid (b : Bytes) : Bool :=
  solidToken.isPrefixOf (bytesStrip b)

/-- Lowercase the ASCII letters, as the Python bytes lower method does. -/
def bytesLower (b : Bytes) : Bytes :=
  b.map (fun c => if 65 ≤ c ∧ c ≤ 90 then c + 32 else c)

/-- The byte string facet. -/
def facetKeyword : Bytes := [102, 97, 99, 101, 116]

/-- The byte string vertex. -/
def vertexKeyword : Bytes := [118, 101, 114, 116, 101, 120]

/-- The byte string endsolid. -/
def endsolidKeyword : Bytes := [101, 110, 100, 115, 111, 108, 105, 100]

/-- Decode of the first 512 bytes with ascii errors ignored: bytes not
below 128 are dropped. -/
def keywordChunk (b : Bytes) : Bytes :=
  (b.take 512).filter (fun c => decide (c < 128))

/-- The format sniff of _parse: the input starts (case-insensitively) with
solid, is longer than 100 bytes, and its initial decoded chunk contains
one of the structural keywords. -/
def isLikelyAscii (b : Bytes) : Bool :=
  bytesLower (b.take 5) == solidToken && decide (100 < b.length) &&
    (decide (facetKeyword <:+: keywordChunk b) ||
      decide (vertexKeyword <:+: keywordChunk b) ||
      decide (endsolidKeyword <:+: keywordChunk b))

/-- STLParser._parse_binary: size checks against the declared triangle
count, then either the valid empty mesh or the decoded records. -/
def _parse_binary (b : Bytes) : Except BinErr ParsedMesh :=
  if b.length < 84 then .error (.tooSmall b.length)
  else
    let numTriangles := leUint32 (b.drop 80)
    let expected := 84 + numTriangles * 50
    if b.length ≠ expected then
      if strippedStartsWithSolid b then
        .error (.sizeMismatchLikelyAscii b.length expected)
      else .error (.sizeMismatch numTriangles expected b.length)
    else if numTriangles = 0 then .ok ⟨[], []⟩
    else
      let d := decodeTris b numTriangles 84
      .ok ⟨d.1, d.2⟩

/-- The tail of STLParser._parse after a possible ascii attempt: try the
binary decode (the vertex list is empty at this point), keep a non-empty
result, and otherwise fail, chaining the stored ascii failure when there
was one.  A binary success with an empty facet list falls through to the
final could-not-parse check of _parse. -/
def binaryStage (parseError : Option String) (b : Bytes) : Except ParseErr ParsedMesh :=
  match _parse_binary b with
  | .ok m =>
      if m.facets.isEmpty then
        match parseError with
        | some ae => .error (.asciiFailed ae)
        | none => .error .couldNotParse
      else .ok m
  | .error e =>
      match parseError with
      | some ae => .error (.bothFailed ae e)
      | none => .error (.binaryFailed e)

/-- STLParser._parse.  The ascii decoding stage _parse_ascii is not
exercised by any verified claim, because every verified input is at most
100 bytes long and the ascii path is then never taken; it is abstracted as
the function argument asciiStage, and every theorem below holds for all of
its behaviours. -/
def _parse (asciiStage : Bytes → Except String ParsedMesh) (b : Bytes) :
    Except ParseErr ParsedMesh :=
  if isLikelyAscii b then
    match asciiStage b with
    | .ok m => if m.facets.isEmpty then binaryStage none b else .ok m
    | .error ae => binaryStage (some ae) b
  else binaryStage none b

/-! Structural lemmas about the embedded definitions. -/

theorem mem_dedupFirstAux {α : Type} [DecidableEq α] (l : List α) :
    ∀ (seen : List α) (x : α), x ∈ dedupFirstAux seen l ↔ x ∈ l ∧ x ∉ seen := by
  induction l with
  | nil => intro seen x; simp [dedupFirstAux]
  | cons a rest ih =>
    intro seen x
    by_cases ha : a ∈ seen
    · rw [dedupFirstAux, if_pos ha, ih]
      constructor
      · rintro ⟨hx, hs⟩
        exact ⟨List.mem_cons_of_mem a hx, hs⟩
      · rintro ⟨hx, hs⟩
        rcases List.mem_cons.mp hx with h | h
        · exact absurd (h ▸ ha) hs
        · exact ⟨h, hs⟩
    · rw [dedupFirstAux, if_neg ha, List.mem_cons, ih]
      constructor
      · rintro (h | ⟨hx, hs⟩)
        · subst h
          exact ⟨List.mem_cons_self x rest, ha⟩
        · exact ⟨List.mem_cons_of_mem a hx,
            fun hxs => hs (List.mem_cons_of_mem a hxs)⟩
      · rintro ⟨hx, hs⟩
        by_cases hxa : x = a
        · exact Or.inl hxa
        · rcases List.mem_cons.mp hx with h | h
          · exact absurd h hxa
          · refine Or.inr ⟨h, fun hxs => ?_⟩
            rcases List.mem_cons.mp hxs with h2 | h2
            · exact hxa h2
            · exact hs h2

theorem mem_dedupFirst {α : Type} [DecidableEq α] (l : List α) (x : α) :
    x ∈ dedupFirst l ↔ x ∈ l := by
  simp [dedupFirst, mem_dedupFirstAux]

theorem nodup_dedupFirstAux {α : Type} [DecidableEq α] (l : List α) :
    ∀ seen : List α, (dedupFirstAux seen l).Nodup := by
  induction l with
  | nil => intro seen; simp [dedupFirstAux]
  | cons a rest ih =>
    intro seen
    by_cases ha : a ∈ seen
    · rw [dedupFirstAux, if_pos ha]
      exact ih seen
    · rw [dedupFirstAux, if_neg ha]
      refine List.nodup_cons.mpr ⟨fun hmem => ?_, ih (a :: seen)⟩
      rcases (mem_dedupFirstAux rest (a :: seen) a).mp hmem with ⟨_, hs⟩
      exact hs (List.mem_cons_self a seen)

theorem nodup_dedupFirst {α : Type} [DecidableEq α] (l : List α) :
    (dedupFirst l).Nodup :=
  nodup_dedupFirstAux l []

theorem toFinset_dedupFirst {α : Type} [DecidableEq α] (l : List α) :
    (dedupFirst l).toFinset = l.toFinset := by
  ext x
  simp [mem_dedupFirst]

theorem length_dedupFirst {α : Type} [DecidableEq α] (l : List α) :
    (dedupFirst l).length = l.toFinset.card := by
  rw [← toFinset_dedupFirst]
  exact (List.toFinset_card_of_nodup (nodup_dedupFirst l)).symm

theorem toFinset_card_lt_of_not_nodup {α : Type} [DecidableEq α] (l : List α)
    (h : ¬ l.Nodup) : l.toFinset.card < l.length := by
  induction l with
  | nil => simp at h
  | cons a rest ih =>
    by_cases ha : a ∈ rest
    · have hset : (a :: rest).toFinset = rest.toFinset := by
        simp [List.toFinset_cons, Finset.insert_eq_self, ha]
      rw [hset, List.length_cons]
      exact lt_of_le_of_lt (List.toFinset_card_le rest) (Nat.lt_succ_self _)
    · have hr : ¬ rest.Nodup := fun hn => h (List.nodup_cons.mpr ⟨ha, hn⟩)
      rw [List.toFinset_cons, List.length_cons]
      calc (insert a rest.toFinset).card ≤ rest.toFinset.card + 1 :=
            Finset.card_insert_le a _
        _ < rest.length + 1 := Nat.succ_lt_succ (ih hr)

@[simp] theorem map_facet_to_tuple (l : List Facet) : l.map facet_to_tuple = l :=
  List.map_id l

theorem map_fst_keyed (g : Facet → List Facet) :
    ∀ l : List Facet, (l.map (fun k => (k, g k))).map Prod.fst = l := by
  intro l
  induction l with
  | nil => rfl
  | cons a rest ih => simp only [List.map_cons, ih]

theorem adjKeys_get_adj_map (facets : List Facet) :
    adjKeys (get_adj_map facets) = dedupFirst facets := by
  rw [adjKeys, get_adj_map, map_facet_to_tuple]
  exact map_fst_keyed _ _

theorem length_get_adj_map (facets : List Facet) :
    (get_adj_map facets).length = (dedupFirst facets).length := by
  simp [get_adj_map]

theorem find?_keyed (g : Facet → List Facet) (f : Facet) :
    ∀ l : List Facet, f ∈ l →
      (l.map (fun k => (k, g k))).find? (fun e => decide (e.1 = f)) =
        some (f, g f) := by
  intro l
  induction l with
  | nil => intro h; simp at h
  | cons a rest ih =>
    intro h
    by_cases haf : a = f
    · subst haf
      rw [List.map_cons]
      exact List.find?_cons_of_pos _ (by simp)
    · rw [List.map_cons, List.find?_cons_of_neg _ (by simp [haf])]
      refine ih ?_
      rcases List.mem_cons.mp h with h1 | h1
      · exact absurd h1.symm haf
      · exact h1

theorem find?_keyed_none (g : Facet → List Facet) (f : Facet) :
    ∀ l : List Facet, f ∉ l →
      (l.map (fun k => (k, g k))).find? (fun e => decide (e.1 = f)) = none := by
  intro l hf
  rw [List.find?_eq_none]
  intro x hx
  simp only [List.mem_map] at hx
  obtain ⟨k, hk, rfl⟩ := hx
  simp only [decide_eq_true_eq]
  intro hkf
  exact hf (hkf ▸ hk)

theorem lookupAdj_eq_of_mem (facets : List Facet) (f : Facet)
    (hf : f ∈ dedupFirst facets) :
    lookupAdj (get_adj_map facets) f = adjListOf facets f := by
  rw [lookupAdj, get_adj_map, map_facet_to_tuple,
    find?_keyed (adjListOf facets) f (dedupFirst facets) hf]

theorem lookupAdj_eq_nil_of_not_mem (facets : List Facet) (f : Facet)
    (hf : f ∉ dedupFirst facets) :
    lookupAdj (get_adj_map facets) f = [] := by
  rw [lookupAdj, get_adj_map, map_facet_to_tuple,
    find?_keyed_none (adjListOf facets) f (dedupFirst facets) hf]

theorem mem_adjListOf (facets : List Facet) (f x : Facet) :
    x ∈ adjListOf facets f ↔ x ∈ dedupFirst facets ∧ x ∈ adjSet facets f := by
  simp [adjListOf, List.mem_filter]

theorem mem_point_map (facets : List Facet) (p : Pt) (f : Facet) :
    f ∈ point_map facets p ↔ f ∈ facets ∧ p ∈ facetPoints f := by
  simp [point_map, List.mem_filter]

theorem mem_adjSet (facets : List Facet) (f g : Facet) :
    g ∈ adjSet facets f ↔ g ≠ f ∧
      ((g ∈ point_map facets f.v1 ∧ g ∈ point_map facets f.v2) ∨
       (g ∈ point_map facets f.v1 ∧ g ∈ point_map facets f.v3) ∨
       (g ∈ point_map facets f.v2 ∧ g ∈ point_map facets f.v3)) := by
  simp [adjSet, Finset.mem_erase, Finset.mem_union, Finset.mem_inter, or_assoc]

theorem mem_lookupAdj_mem_keys (facets : List Facet) (a x : Facet)
    (hx : x ∈ lookupAdj (get_adj_map facets) a) : x ∈ dedupFirst facets := by
  by_cases ha : a ∈ dedupFirst facets
  · rw [lookupAdj_eq_of_mem facets a ha] at hx
    exact ((mem_adjListOf facets a x).mp hx).1
  · rw [lookupAdj_eq_nil_of_not_mem facets a ha] at hx
    simp at hx

theorem mem_insertByDist (m : Pt) (f x : Facet) (l : List Facet) :
    x ∈ insertByDist m f l ↔ x = f ∨ x ∈ l := by
  induction l with
  | nil => simp [insertByDist]
  | cons g rest ih =>
    rw [insertByDist]
    by_cases hlt : distSq m (facetMean f) < distSq m (facetMean g)
    · simp [hlt]
    · simp only [hlt, if_false, List.mem_cons, ih]
      tauto

theorem mem_sortCands (m : Pt) (l : List Facet) (x : Facet) :
    x ∈ sortCands m l ↔ x ∈ l := by
  induction l with
  | nil => simp [sortCands]
  | cons g rest ih =>
    simp only [sortCands, List.foldr_cons, mem_insertByDist, List.mem_cons]
    simp only [sortCands] at ih
    rw [ih]

/-! Backtracking lemmas: the candidate loop restores the visited set on a
falsy result, and every truthy result is a valid adjacency chain. -/

theorem tryCands_restore
    (go : List Facet → Finset Facet → Option (List Facet) × Finset Facet)
    (hgo : ∀ p r, pyTruthy (go p r).1 = false → (go p r).2 = r)
    (path : List Facet) :
    ∀ (cands : List Facet) (removed : Finset Facet),
      pyTruthy (tryCands go path cands removed).1 = false →
      (tryCands go path cands removed).2 = removed := by
  intro cands
  induction cands with
  | nil => intro removed _; rfl
  | cons a rest ih =>
    intro removed hfail
    rw [tryCands] at hfail ⊢
    by_cases hmem : a ∈ removed
    · rw [if_pos hmem] at hfail ⊢
      exact ih removed hfail
    · rw [if_neg hmem] at hfail ⊢
      by_cases htr : pyTruthy (go (path ++ [a]) (insert a removed)).1 = true
      · rw [if_pos htr] at hfail
        rw [htr] at hfail
        exact absurd hfail (by simp)
      · have hf : pyTruthy (go (path ++ [a]) (insert a removed)).1 = false :=
          Bool.eq_false_iff.mpr (fun hb => htr hb)
        rw [if_neg htr] at hfail ⊢
        rw [hgo _ _ hf, Finset.erase_insert hmem] at hfail ⊢
        exact ih removed hfail

theorem _decompose_restore :
    ∀ (fuel : Nat) (adj : AdjMap) (path : List Facet) (removed : Finset Facet)
      (depth : Option Nat),
      pyTruthy (_decompose fuel adj path removed depth).1 = false →
      (_decompose fuel adj path removed depth).2 = removed := by
  intro fuel
  induction fuel with
  | zero => intro adj path removed depth _; rfl
  | succ fuel ih =>
    intro adj path removed depth hfail
    rw [_decompose] at hfail ⊢
    by_cases h1 : depthHit depth path = true
    · rw [if_pos h1]
    · rw [if_neg h1] at hfail ⊢
      by_cases h2 : path.length = adj.length
      · rw [if_pos h2]
      · rw [if_neg h2] at hfail ⊢
        cases hlast : path.getLast? with
        | none => rfl
        | some last =>
          rw [hlast] at hfail
          exact tryCands_restore _ (fun p r => ih adj p r depth) path _ removed hfail

/-- The adjacency-chain step relation of a decomposition path. -/
def adjR (adj : AdjMap) (a b : Facet) : Prop := b ∈ lookupAdj adj a

/-- Soundness contract of a search result: any returned path is a nodup
adjacency chain through the keys whose length equals the key count. -/
def GoodRes (adj : AdjMap) (res : Option (List Facet) × Finset Facet) : Prop :=
  ∀ q, res.1 = some q →
    q.Nodup ∧ List.Chain' (adjR adj) q ∧ (∀ f ∈ q, f ∈ adjKeys adj) ∧
      q.length = adj.length

theorem tryCands_sound (adj : AdjMap)
    (go : List Facet → Finset Facet → Option (List Facet) × Finset Facet)
    (hgoR : ∀ p r, pyTruthy (go p r).1 = false → (go p r).2 = r)
    (hgoS : ∀ p, p.Nodup → List.Chain' (adjR adj) p → (∀ f ∈ p, f ∈ adjKeys adj) →
      GoodRes adj (go p p.toFinset))
    (path : List Facet) (last : Facet)
    (hlast : path.getLast? = some last)
    (hnd : path.Nodup) (hch : List.Chain' (adjR adj) path)
    (hks : ∀ f ∈ path, f ∈ adjKeys adj) :
    ∀ cands : List Facet,
      (∀ f ∈ cands, adjR adj last f ∧ f ∈ adjKeys adj) →
      GoodRes adj (tryCands go path cands path.toFinset) := by
  intro cands
  induction cands with
  | nil =>
    intro _ q hq
    simp [tryCands] at hq
  | cons a rest ih =>
    intro hc
    have hcrest : ∀ f ∈ rest, adjR adj last f ∧ f ∈ adjKeys adj :=
      fun f hf => hc f (List.mem_cons_of_mem a hf)
    have hca := hc a (List.mem_cons_self a rest)
    rw [tryCands]
    by_cases hmem : a ∈ path.toFinset
    · rw [if_pos hmem]
      exact ih hcrest
    · rw [if_neg hmem]
      have hanp : a ∉ path := fun h => hmem (List.mem_toFinset.mpr h)
      have hnd2 : (path ++ [a]).Nodup := by
        rw [List.nodup_append]
        refine ⟨hnd, List.nodup_singleton a, fun x hx hx2 => ?_⟩
        rw [List.mem_singleton] at hx2
        exact hanp (hx2 ▸ hx)
      have hch2 : List.Chain' (adjR adj) (path ++ [a]) := by
        rw [List.chain'_append]
        refine ⟨hch, List.chain'_singleton a, fun x hx y hy => ?_⟩
        rw [hlast, Option.mem_some_iff] at hx
        simp only [List.head?_cons, Option.mem_some_iff] at hy
        rw [← hx, ← hy]
        exact hca.1
      have hks2 : ∀ f ∈ path ++ [a], f ∈ adjKeys adj := by
        intro f hf
        rcases List.mem_append.mp hf with h | h
        · exact hks f h
        · rw [List.mem_singleton] at h
          exact h ▸ hca.2
      have hset : insert a path.toFinset = (path ++ [a]).toFinset := by
        ext x
        simp [List.toFinset_append, or_comm]
      by_cases htr : pyTruthy (go (path ++ [a]) (insert a path.toFinset)).1 = true
      · rw [if_pos htr]
        rw [hset]
        exact hgoS (path ++ [a]) hnd2 hch2 hks2
      · rw [if_neg htr]
        have hf : pyTruthy (go (path ++ [a]) (insert a path.toFinset)).1 = false :=
          Bool.eq_false_iff.mpr (fun hb => htr hb)
        rw [hgoR _ _ hf, Finset.erase_insert hmem]
        exact ih hcrest

theorem _decompose_sound (adj : AdjMap)
    (hv : ∀ a x, x ∈ lookupAdj adj a → x ∈ adjKeys adj) :
    ∀ (fuel : Nat) (path : List Facet),
      path.Nodup → List.Chain' (adjR adj) path → (∀ f ∈ path, f ∈ adjKeys adj) →
      GoodRes adj (_decompose fuel adj path path.toFinset none) := by
  intro fuel
  induction fuel with
  | zero =>
    intro path _ _ _ q hq
    simp [_decompose] at hq
  | succ fuel ih =>
    intro path hnd hch hks
    rw [_decompose]
    have hd : depthHit none path = false := rfl
    rw [hd]
    simp only [Bool.false_eq_true, if_false]
    by_cases hlen : path.length = adj.length
    · rw [if_pos hlen]
      intro q hq
      rw [Option.some_inj] at hq
      exact hq ▸ ⟨hnd, hch, hks, hlen⟩
    · rw [if_neg hlen]
      cases hlast : path.getLast? with
      | none =>
        intro q hq
        simp at hq
      | some last =>
        refine tryCands_sound adj _ (fun p r => _decompose_restore fuel adj p r none)
          (fun p h1 h2 h3 => ih p h1 h2 h3) path last hlast hnd hch hks _ ?_
        intro f hf
        rw [mem_sortCands] at hf
        exact ⟨hf, hv last f hf⟩

theorem decomposeGo_sound (facets : List Facet) :
    ∀ l : List Facet, (∀ f ∈ l, f ∈ facets) →
      ∀ path, decomposeGo (get_adj_map facets) none l = some path →
        path.Nodup ∧ List.Chain' (adjR (get_adj_map facets)) path ∧
        (∀ f ∈ path, f ∈ dedupFirst facets) ∧
        path.length = (dedupFirst facets).length := by
  intro l
  induction l with
  | nil =>
    intro _ path h
    simp [decomposeGo] at h
  | cons f rest ih =>
    intro hsub path h
    rw [decomposeGo] at h
    by_cases htr : pyTruthy (_decompose ((get_adj_map facets).length + 1)
        (get_adj_map facets) [facet_to_tuple f] {facet_to_tuple f} none).1 = true
    · rw [if_pos htr] at h
      have hfk : facet_to_tuple f ∈ adjKeys (get_adj_map facets) := by
        rw [adjKeys_get_adj_map, facet_to_tuple_def, mem_dedupFirst]
        exact hsub f (List.mem_cons_self f rest)
      have hset : ({facet_to_tuple f} : Finset Facet) = [facet_to_tuple f].toFinset := by
        simp
      have hgood := _decompose_sound (get_adj_map facets)
        (fun a x hx => by
          rw [adjKeys_get_adj_map]
          exact mem_lookupAdj_mem_keys facets a x hx)
        ((get_adj_map facets).length + 1) [facet_to_tuple f]
        (List.nodup_singleton _) (List.chain'_singleton _)
        (fun x hx => by rw [List.mem_singleton] at hx; exact hx ▸ hfk)
      rw [← hset] at hgood
      have hres := hgood path h
      refine ⟨hres.1, hres.2.1, fun x hx => ?_, ?_⟩
      · have := hres.2.2.1 x hx
        rw [adjKeys_get_adj_map] at this
        exact this
      · rw [hres.2.2.2, length_get_adj_map]
    · rw [if_neg htr] at h
      exact ih (fun x hx => hsub x (List.mem_cons_of_mem f hx)) path h

theorem decompose_some_spec (facets path : List Facet)
    (h : decompose facets none = some path) :
    path.Nodup ∧
    List.Chain' (fun a b => b ∈ lookupAdj (get_adj_map facets) a) path ∧
    (∀ f, f ∈ path ↔ f ∈ facets) ∧
    path.length = (dedupFirst facets).length := by
  obtain ⟨hnd, hch, hkeys, hlen⟩ :=
    decomposeGo_sound facets facets (fun f hf => hf) path h
  have hmem : ∀ f, f ∈ path ↔ f ∈ facets := by
    intro f
    constructor
    · intro hf
      exact (mem_dedupFirst facets f).mp (hkeys f hf)
    · intro hf
      have h1 : path.toFinset ⊆ (dedupFirst facets).toFinset := by
        intro x hx
        rw [List.mem_toFinset] at hx ⊢
        exact hkeys x hx
      have hc1 : (dedupFirst facets).toFinset.card ≤ path.toFinset.card := by
        rw [List.toFinset_card_of_nodup hnd,
          List.toFinset_card_of_nodup (nodup_dedupFirst facets), hlen]
      have heq : path.toFinset = (dedupFirst facets).toFinset :=
        Finset.eq_of_subset_of_card_le h1 hc1
      have h2 : f ∈ (dedupFirst facets).toFinset := by
        rw [List.mem_toFinset, mem_dedupFirst]
        exact hf
      rw [← heq, List.mem_toFinset] at h2
      exact h2
  exact ⟨hnd, hch, hmem, hlen⟩

theorem _decompose_depth_zero :
    ∀ (fuel : Nat) (adj : AdjMap) (path : List Facet) (removed : Finset Facet),
      _decompose fuel adj path removed (some 0) =
        _decompose fuel adj path removed none := by
  intro fuel
  induction fuel with
  | zero => intro adj path removed; rfl
  | succ fuel ih =>
    intro adj path removed
    rw [_decompose, _decompose]
    have hgo : (fun p r => _decompose fuel adj p r (some 0)) =
        (fun p r => _decompose fuel adj p r none) := by
      funext p r
      exact ih adj p r
    rw [hgo]
    have hd : depthHit (some 0) path = depthHit none path := rfl
    rw [hd]

theorem decomposeGo_depth_zero (adj : AdjMap) :
    ∀ l : List Facet, decomposeGo adj (some 0) l = decomposeGo adj none l := by
  intro l
  induction l with
  | nil => rfl
  | cons f rest ih =>
    rw [decomposeGo, decomposeGo, _decompose_depth_zero, ih]

/-! Concrete facets used by the witnesses and counterexamples below. -/

/-- A triangle in the z plane at the origin. -/
def wT : Facet := ⟨⟨0, 0, 0⟩, ⟨1, 0, 0⟩, ⟨0, 1, 0⟩⟩

/-- A triangle sharing the edge from the origin to x equal one with wT. -/
def wU : Facet := ⟨⟨0, 0, 0⟩, ⟨1, 0, 0⟩, ⟨0, 0, 1⟩⟩

/-- A triangle sharing no vertex with wT. -/
def wQ : Facet := ⟨⟨5, 5, 5⟩, ⟨6, 5, 5⟩, ⟨5, 6, 5⟩⟩

/-- A degenerate facet (repeated corner) for the symmetry counterexample. -/
def degA : Facet := ⟨⟨0, 0, 0⟩, ⟨0, 0, 0⟩, ⟨1, 0, 0⟩⟩

/-- A facet sharing exactly one vertex with degA. -/
def degB : Facet := ⟨⟨0, 0, 0⟩, ⟨2, 0, 0⟩, ⟨3, 0, 0⟩⟩

/-! Claim theorems. -/

/-- Claim C2: whenever decompose without a depth bound returns a path, the
path is an adjacency chain (each next facet lies in the adjacency entry of
its predecessor) and is a permutation of the set of input facets: no
duplicates and no omissions. -/
theorem c2_decompose_valid (facets path : List Facet)
    (h : decompose facets none = some path) :
    List.Chain' (fun a b => b ∈ lookupAdj (get_adj_map facets) a) path ∧
    path.Nodup ∧ (∀ f, f ∈ path ↔ f ∈ facets) := by
  obtain ⟨hnd, hch, hmem, _⟩ := decompose_some_spec facets path h
  exact ⟨hch, hnd, hmem⟩

/-- Witness for C2 at a concrete one-facet mesh. -/
theorem c2_decompose_valid_witness :
    List.Chain' (fun a b => b ∈ lookupAdj (get_adj_map [wT]) a) [wT] ∧
    [wT].Nodup ∧ (∀ f, f ∈ [wT] ↔ f ∈ [wT]) :=
  c2_decompose_valid [wT] [wT] (by decide)

/-- Claim C3 counterexample: decompose on the empty facet list does not
return an empty path; it takes the failure branch (the raised
unable-to-find-decomposition exception, modelled as none). -/
theorem c3_empty_decompose_counterexample :
    decompose ([] : List Facet) none = none ∧
    decompose ([] : List Facet) none ≠ some [] := by
  exact ⟨rfl, by decide⟩

/-- Claim C3 amended: calling decompose on an empty facet list raises the
unable-to-find-decomposition exception (the start-facet loop has nothing
to iterate and falls through to the raise), for every depth argument. -/
theorem c3_empty_decompose_raises (depth : Option Nat) :
    decompose ([] : List Facet) depth = none := rfl

/-- Claim C5: the adjacency map is irreflexive; no facet appears in its own
adjacency list, for every input facet list. -/
theorem c5_adj_map_irreflexive (facets : List Facet) (f : Facet) :
    f ∉ lookupAdj (get_adj_map facets) f := by
  by_cases hf : f ∈ dedupFirst facets
  · rw [lookupAdj_eq_of_mem facets f hf]
    intro hmem
    have h1 := (mem_adjListOf facets f f).mp hmem
    have h2 := (mem_adjSet facets f f).mp h1.2
    exact h2.1 rfl
  · rw [lookupAdj_eq_nil_of_not_mem facets f hf]
    simp

/-- Claim C8: the backtracking step restores its state on failure: whenever
a _decompose call returns None, the visited set it was passed is, on
return, exactly what it was at entry. -/
theorem c8_backtrack_restores (fuel : Nat) (adj : AdjMap) (path : List Facet)
    (removed : Finset Facet) (depth : Option Nat)
    (h : (_decompose fuel adj path removed depth).1 = none) :
    (_decompose fuel adj path removed depth).2 = removed :=
  _decompose_restore fuel adj path removed depth (by rw [h]; rfl)

/-- Witness for C8 on a concrete failing search over two disconnected
triangles. -/
theorem c8_backtrack_restores_witness :
    (_decompose 1 (get_adj_map [wT, wQ]) [wT] {wT} none).2 = {wT} :=
  c8_backtrack_restores 1 (get_adj_map [wT, wQ]) [wT] {wT} none (by decide)

/-- Claim C9: the full-coverage test compares the path length with the
number of distinct facet keys, so on inputs with byte-identical duplicate
facets any returned unbounded path covers each distinct facet exactly once
and is strictly shorter than the input list. -/
theorem c9_duplicates_collapse (facets path : List Facet)
    (hdup : ¬ facets.Nodup) (h : decompose facets none = some path) :
    path.Nodup ∧ (∀ f, f ∈ path ↔ f ∈ facets) ∧
    (∀ f ∈ facets, path.count f = 1) ∧ path.length < facets.length := by
  obtain ⟨hnd, _, hmem, hlen⟩ := decompose_some_spec facets path h
  refine ⟨hnd, hmem, fun f hf => ?_, ?_⟩
  · exact List.count_eq_one_of_mem hnd ((hmem f).mpr hf)
  · rw [hlen, length_dedupFirst]
    exact toFinset_card_lt_of_not_nodup facets hdup

/-- Witness for C9 on a concrete duplicated one-triangle mesh. -/
theorem c9_duplicates_collapse_witness :
    [wT].Nodup ∧ (∀ f, f ∈ [wT] ↔ f ∈ [wT, wT]) ∧
    (∀ f ∈ [wT, wT], [wT].count f = 1) ∧ [wT].length < [wT, wT].length :=
  c9_duplicates_collapse [wT, wT] [wT] (by decide) (by decide)

/-- Claim C10: a depth of zero is falsy in Python, so passing depth zero to
decompose behaves identically to passing no depth bound at all. -/
theorem c10_depth_zero_ignored (facets : List Facet) :
    decompose facets (some 0) = decompose facets none := by
  rw [decompose, decompose, decomposeGo_depth_zero]

/-- Claim C4 counterexample: with a degenerate facet (a repeated corner)
the adjacency relation is not symmetric: degB lies in the adjacency list
of degA, because the repeated-corner vertex pair of degA degenerates to a
single shared vertex, but degA does not lie in the adjacency list of degB. -/
theorem c4_symmetry_counterexample :
    degB ∈ lookupAdj (get_adj_map [degA, degB]) degA ∧
    degA ∉ lookupAdj (get_adj_map [degA, degB]) degB := by
  decide

/-- A facet whose three corner vertices are pairwise distinct. -/
def distinctCorners (f : Facet) : Prop :=
  f.v1 ≠ f.v2 ∧ f.v1 ≠ f.v3 ∧ f.v2 ≠ f.v3

instance (f : Facet) : Decidable (distinctCorners f) := by
  unfold distinctCorners
  infer_instance

/-- Claim C4 amended: for every input facet list in which each facet has
three pairwise-distinct vertices, the adjacency map built by get_adj_map
is symmetric: if B appears in the adjacency list of A then A appears in
the adjacency list of B.  (With a degenerate repeated-corner facet the
relation can be asymmetric, as the counterexample shows.) -/
theorem c4_adj_map_symmetric (facets : List Facet)
    (hD : ∀ f ∈ facets, distinctCorners f) (A B : Facet)
    (hB : B ∈ lookupAdj (get_adj_map facets) A) :
    A ∈ lookupAdj (get_adj_map facets) B := by
  by_cases hA : A ∈ dedupFirst facets
  case neg =>
    rw [lookupAdj_eq_nil_of_not_mem facets A hA] at hB
    simp at hB
  case pos =>
  rw [lookupAdj_eq_of_mem facets A hA] at hB
  obtain ⟨hBk, hBadj⟩ := (mem_adjListOf facets A B).mp hB
  obtain ⟨hne, hcases⟩ := (mem_adjSet facets A B).mp hBadj
  have hAf : A ∈ facets := (mem_dedupFirst facets A).mp hA
  have hBf : B ∈ facets := (mem_dedupFirst facets B).mp hBk
  obtain ⟨h12, h13, h23⟩ := hD A hAf
  have hkey : ∃ u v : Pt, u ≠ v ∧ u ∈ facetPoints B ∧ v ∈ facetPoints B ∧
      u ∈ facetPoints A ∧ v ∈ facetPoints A := by
    rcases hcases with ⟨hu, hv⟩ | ⟨hu, hv⟩ | ⟨hu, hv⟩
    · exact ⟨A.v1, A.v2, h12, ((mem_point_map facets A.v1 B).mp hu).2,
        ((mem_point_map facets A.v2 B).mp hv).2,
        by simp [facetPoints], by simp [facetPoints]⟩
    · exact ⟨A.v1, A.v3, h13, ((mem_point_map facets A.v1 B).mp hu).2,
        ((mem_point_map facets A.v3 B).mp hv).2,
        by simp [facetPoints], by simp [facetPoints]⟩
    · exact ⟨A.v2, A.v3, h23, ((mem_point_map facets A.v2 B).mp hu).2,
        ((mem_point_map facets A.v3 B).mp hv).2,
        by simp [facetPoints], by simp [facetPoints]⟩
  obtain ⟨u, v, huv, huB, hvB, huA, hvA⟩ := hkey
  have hApm : ∀ w ∈ facetPoints A, A ∈ point_map facets w := fun w hw =>
    (mem_point_map facets w A).mpr ⟨hAf, hw⟩
  have hAadj : A ∈ adjSet facets B := by
    rw [mem_adjSet]
    refine ⟨fun h => hne h.symm, ?_⟩
    simp only [facetPoints, List.mem_cons, List.mem_singleton,
      List.not_mem_nil, or_false] at huB hvB
    rcases huB with h1 | h1 | h1 <;> rcases hvB with h2 | h2 | h2
    · exact absurd (h1.trans h2.symm) huv
    · exact Or.inl ⟨h1 ▸ hApm u huA, h2 ▸ hApm v hvA⟩
    · exact Or.inr (Or.inl ⟨h1 ▸ hApm u huA, h2 ▸ hApm v hvA⟩)
    · exact Or.inl ⟨h2 ▸ hApm v hvA, h1 ▸ hApm u huA⟩
    · exact absurd (h1.trans h2.symm) huv
    · exact Or.inr (Or.inr ⟨h1 ▸ hApm u huA, h2 ▸ hApm v hvA⟩)
    · exact Or.inr (Or.inl ⟨h2 ▸ hApm v hvA, h1 ▸ hApm u huA⟩)
    · exact Or.inr (Or.inr ⟨h2 ▸ hApm v hvA, h1 ▸ hApm u huA⟩)
    · exact absurd (h1.trans h2.symm) huv
  rw [lookupAdj_eq_of_mem facets B hBk]
  exact (mem_adjListOf facets B A).mpr ⟨(mem_dedupFirst facets A).mpr hAf, hAadj⟩

/-- Witness for the amended C4 on two concrete edge-sharing triangles. -/
theorem c4_adj_map_symmetric_witness :
    wT ∈ lookupAdj (get_adj_map [wT, wU]) wU :=
  c4_adj_map_symmetric [wT, wU] (by decide) wT wU (by decide)

/-- A seeded search whose start facet has no adjacency candidates and whose
path has not reached the key count immediately dead-ends, leaving the
visited set unchanged. -/
theorem _decompose_dead_end (fuel : Nat) (adj : AdjMap) (t : Facet)
    (removed : Finset Facet) (hlen : 1 ≠ adj.length)
    (hlook : lookupAdj adj t = []) :
    _decompose (fuel + 1) adj [t] removed none = (none, removed) := by
  rw [_decompose]
  have hd : depthHit none [t] = false := rfl
  rw [hd]
  simp only [Bool.false_eq_true, if_false]
  rw [if_neg (by simpa using hlen)]
  show tryCands (fun p r => _decompose fuel adj p r none) [t]
      (sortCands (facetMean t) (lookupAdj adj t)) removed = (none, removed)
  rw [hlook]
  rfl

/-- Claim C6: for a mesh of exactly two triangles sharing no vertex, both
facets receive empty adjacency lists and the unbounded decomposition fails
with the decomposition-not-found error (modelled as none). -/
theorem c6_disconnected_fails (A B : Facet)
    (hdisj : ∀ p ∈ facetPoints A, p ∉ facetPoints B) :
    lookupAdj (get_adj_map [A, B]) A = [] ∧
    lookupAdj (get_adj_map [A, B]) B = [] ∧
    decompose [A, B] none = none := by
  have hAB : A ≠ B := by
    intro h
    exact hdisj A.v1 (by simp [facetPoints]) (by rw [← h]; simp [facetPoints])
  have hBA : B ≠ A := fun h => hAB h.symm
  have hdd : dedupFirst [A, B] = [A, B] := by
    rw [dedupFirst, dedupFirstAux, if_neg (List.not_mem_nil A), dedupFirstAux,
      if_neg (by simp [hBA]), dedupFirstAux]
  have hadjA : adjSet [A, B] A = ∅ := by
    rw [Finset.eq_empty_iff_forall_not_mem]
    intro g hg
    obtain ⟨hgne, hcases⟩ := (mem_adjSet [A, B] A g).mp hg
    have hgmem : ∀ w ∈ facetPoints A, g ∈ point_map [A, B] w → False := by
      intro w hw hpm
      obtain ⟨hgl, hwg⟩ := (mem_point_map [A, B] w g).mp hpm
      rcases List.mem_cons.mp hgl with h | h
      · exact hgne (by rw [h])
      · rw [List.mem_singleton] at h
        exact hdisj w hw (h ▸ hwg)
    rcases hcases with ⟨hu, _⟩ | ⟨hu, _⟩ | ⟨hu, _⟩
    · exact hgmem A.v1 (by simp [facetPoints]) hu
    · exact hgmem A.v1 (by simp [facetPoints]) hu
    · exact hgmem A.v2 (by simp [facetPoints]) hu
  have hadjB : adjSet [A, B] B = ∅ := by
    rw [Finset.eq_empty_iff_forall_not_mem]
    intro g hg
    obtain ⟨hgne, hcases⟩ := (mem_adjSet [A, B] B g).mp hg
    have hgmem : ∀ w ∈ facetPoints B, g ∈ point_map [A, B] w → False := by
      intro w hw hpm
      obtain ⟨hgl, hwg⟩ := (mem_point_map [A, B] w g).mp hpm
      rcases List.mem_cons.mp hgl with h | h
      · exact hdisj w (h ▸ hwg) hw
      · rw [List.mem_singleton] at h
        exact hgne (by rw [h])
    rcases hcases with ⟨hu, _⟩ | ⟨hu, _⟩ | ⟨hu, _⟩
    · exact hgmem B.v1 (by simp [facetPoints]) hu
    · exact hgmem B.v1 (by simp [facetPoints]) hu
    · exact hgmem B.v2 (by simp [facetPoints]) hu
  have hlookA : lookupAdj (get_adj_map [A, B]) A = [] := by
    rw [lookupAdj_eq_of_mem [A, B] A (by rw [hdd]; simp)]
    rw [adjListOf, List.filter_eq_nil_iff]
    intro g _
    simp [hadjA]
  have hlookB : lookupAdj (get_adj_map [A, B]) B = [] := by
    rw [lookupAdj_eq_of_mem [A, B] B (by rw [hdd]; simp)]
    rw [adjListOf, List.filter_eq_nil_iff]
    intro g _
    simp [hadjB]
  refine ⟨hlookA, hlookB, ?_⟩
  have hlen : (get_adj_map [A, B]).length = 2 := by
    rw [length_get_adj_map, hdd]
    rfl
  have hfailA : _decompose ((get_adj_map [A, B]).length + 1) (get_adj_map [A, B])
      [A] {A} none = (none, {A}) :=
    _decompose_dead_end _ _ A {A} (by rw [hlen]; decide) hlookA
  have hfailB : _decompose ((get_adj_map [A, B]).length + 1) (get_adj_map [A, B])
      [B] {B} none = (none, {B}) :=
    _decompose_dead_end _ _ B {B} (by rw [hlen]; decide) hlookB
  rw [decompose]
  simp only [decomposeGo, facet_to_tuple_def]
  rw [hfailA, hfailB]
  rfl

/-- Witness for C6 on two concrete vertex-disjoint triangles. -/
theorem c6_disconnected_fails_witness :
    lookupAdj (get_adj_map [wT, wQ]) wT = [] ∧
    lookupAdj (get_adj_map [wT, wQ]) wQ = [] ∧
    decompose [wT, wQ] none = none :=
  c6_disconnected_fails wT wQ (by decide)

/-- Claim C1 (code bug): on any 84-byte buffer whose little-endian triangle
count at offset 80 is zero, _parse_binary itself accepts the input and
produces the valid empty mesh, but _parse then raises the generic
could-not-parse ValueError, because its final check treats the empty
vertex list as a total failure; no empty Mesh is returned to the caller. -/
theorem c1_empty_binary_raises (asciiStage : Bytes → Except String ParsedMesh)
    (b : Bytes) (hlen : b.length = 84) (hcount : leUint32 (b.drop 80) = 0) :
    _parse_binary b = Except.ok ⟨[], []⟩ ∧
    _parse asciiStage b = Except.error ParseErr.couldNotParse := by
  have hascii : isLikelyAscii b = false := by
    simp [isLikelyAscii, hlen]
  have hbin : _parse_binary b = Except.ok ⟨[], []⟩ := by
    simp [_parse_binary, hcount, hlen]
  refine ⟨hbin, ?_⟩
  rw [_parse, if_neg (by simp [hascii]), binaryStage, hbin]
  rfl

/-- Witness data for C1: the 84 zero bytes, a zero-filled binary header
with triangle count 0. -/
def zeros84 : Bytes := List.replicate 84 0

/-- Witness for C1 at the concrete zero-filled 84-byte buffer. -/
theorem c1_empty_binary_raises_witness :
    _parse_binary zeros84 = Except.ok ⟨[], []⟩ ∧
    _parse (fun _ => Except.error "") zeros84 = Except.error ParseErr.couldNotParse :=
  c1_empty_binary_raises (fun _ => Except.error "") zeros84 (by decide) (by decide)

/-- Claim C7: an 84-byte buffer whose triangle-count field declares 2
triangles (expected size 184) fails with a binary size-mismatch error
wrapped by _parse, and no mesh is produced. -/
theorem c7_size_mismatch_fails (asciiStage : Bytes → Except String ParsedMesh)
    (b : Bytes) (hlen : b.length = 84) (hcount : leUint32 (b.drop 80) = 2) :
    ∃ e : BinErr, _parse asciiStage b = Except.error (ParseErr.binaryFailed e) ∧
      e.isSizeMismatch = true := by
  have hascii : isLikelyAscii b = false := by
    simp [isLikelyAscii, hlen]
  by_cases hs : strippedStartsWithSolid b = true
  · refine ⟨BinErr.sizeMismatchLikelyAscii 84 184, ?_, rfl⟩
    have hbin : _parse_binary b =
        Except.error (BinErr.sizeMismatchLikelyAscii 84 184) := by
      simp [_parse_binary, hcount, hlen, hs]
    rw [_parse, if_neg (by simp [hascii]), binaryStage, hbin]
  · refine ⟨BinErr.sizeMismatch 2 184 84, ?_, rfl⟩
    have hbin : _parse_binary b =
        Except.error (BinErr.sizeMismatch 2 184 84) := by
      simp [_parse_binary, hcount, hlen, hs]
    rw [_parse, if_neg (by simp [hascii]), binaryStage, hbin]

/-- Witness data for C7: an 84-byte buffer declaring 2 triangles. -/
def shortCount2 : Bytes := List.replicate 80 0 ++ [2, 0, 0, 0]

/-- Witness for C7 at the concrete truncated buffer. -/
theorem c7_size_mismatch_fails_witness :
    ∃ e : BinErr, _parse (fun _ => Except.error "") shortCount2 =
      Except.error (ParseErr.binaryFailed e) ∧ e.isSizeMismatch = true :=
  c7_size_mismatch_fails (fun _ => Except.error "") shortCount2 (by decide) (by decide)
